import Mathlib

/-!
Shallow embedding of `src/bun.js/bindings/webcrypto/PhonyWorkQueue.cpp`.

The source is a two-function adapter:

* `PhonyWorkQueue::create(name)` ignores `name` and returns
  `adoptRef(*new PhonyWorkQueue)`;
* `PhonyWorkQueue::dispatch(function)` calls
  `ConcurrentCppTask__createAndRun(new EventLoopTaskNoContext(WTFMove(function)))`.

Heap allocation and the observable effects are made explicit by threading a
`World` value through the operations.  Deferred computations are opaque: the
development is parametric in a type `Comp` of computations, since the adapter
never inspects or invokes them.
-/

namespace Bun

/-- Task wrapper `EventLoopTaskNoContext`.  Modelled from the spec: its
definition lives in a header outside the provided sources; per the spec it is
an opaque container adapting a deferred computation into the representation
the external execution facility requires.  The constructor stores the moved
computation; the heap identity produced by `new` is made explicit as
`taskId`. -/
structure EventLoopTaskNoContext (Comp : Type) where
  taskId : Nat
  func : Comp
  deriving DecidableEq, Repr

/-- `PhonyWorkQueue` declares no data members: a value is nothing but a
heap-allocated, reference-counted object, so the embedding carries only the
allocation identity of that object. -/
structure PhonyWorkQueue where
  queueId : Nat
  deriving DecidableEq, Repr

/-- The observable world threaded through the embedded operations.

* `nextId` — the allocator's next fresh heap identity (each `new` consumes it);
* `queues` — identities of the `PhonyWorkQueue` objects allocated so far;
* `refCount` — per-object reference count (0 for unallocated identities);
* `submitted` — the log of task wrappers handed to the external task-creation
  facility, in order of submission;
* `executedSync` — the log of deferred computations invoked synchronously on
  the caller's thread;
* `errorsReported` — errors this component reported back to its caller. -/
structure World (Comp : Type) where
  nextId : Nat
  queues : List Nat
  refCount : Nat → Nat
  submitted : List (EventLoopTaskNoContext Comp)
  executedSync : List Comp
  errorsReported : List String

/-- The world before any allocation or dispatch has happened. -/
def initialWorld (Comp : Type) : World Comp :=
  { nextId := 0
    queues := []
    refCount := fun _ => 0
    submitted := []
    executedSync := []
    errorsReported := [] }

variable {Comp : Type}

/-- `new EventLoopTaskNoContext(WTFMove(function))`: allocate a fresh task
wrapper holding the moved computation. -/
def newEventLoopTaskNoContext (func : Comp) (w : World Comp) :
    EventLoopTaskNoContext Comp × World Comp :=
  ({ taskId := w.nextId, func := func }, { w with nextId := w.nextId + 1 })

/-- Modelled from the spec: `ConcurrentCppTask__createAndRun` is the external
task-creation facility, declared `extern "C"` and defined outside the provided
sources.  Per the spec it is an injected capability with a single submit-task
entry point, observable through a test double that records each submitted
task wrapper; the embedding is exactly that double: each invocation appends
the submitted wrapper to the log. -/
def ConcurrentCppTask__createAndRun (task : EventLoopTaskNoContext Comp)
    (w : World Comp) : World Comp :=
  { w with submitted := w.submitted ++ [task] }

/-- `PhonyWorkQueue::create`: `(void)name; return adoptRef(*new PhonyWorkQueue);`.
`new` allocates a fresh object whose reference count starts at one, and
`adoptRef` adopts that initial count without changing it, so the caller holds
the sole reference at return.  The `name` argument is cast to void and has no
other occurrence. -/
def PhonyWorkQueue.create (name : String) (w : World Comp) :
    PhonyWorkQueue × World Comp :=
  ({ queueId := w.nextId },
   { w with
      nextId := w.nextId + 1
      queues := w.queues ++ [w.nextId]
      refCount := fun i => if i = w.nextId then 1 else w.refCount i })

/-- `PhonyWorkQueue::dispatch`: allocate a fresh `EventLoopTaskNoContext`
wrapping the moved computation and hand it to
`ConcurrentCppTask__createAndRun`.  The body names no member of `self`, never
invokes `function`, and returns void. -/
def PhonyWorkQueue.dispatch (self : PhonyWorkQueue) (function : Comp)
    (w : World Comp) : World Comp :=
  let p := newEventLoopTaskNoContext function w
  ConcurrentCppTask__createAndRun p.1 p.2

/-- Run a sequence of dispatch calls, each naming the dispatcher it goes
through and the computation it hands off. -/
def runDispatches (calls : List (PhonyWorkQueue × Comp)) (w : World Comp) :
    World Comp :=
  calls.foldl (fun acc c => c.1.dispatch c.2 acc) w

/-- Run a sequence of `create` calls with the given names, keeping only the
final world. -/
def runCreates (names : List String) (w : World Comp) : World Comp :=
  names.foldl (fun acc n => (PhonyWorkQueue.create n acc).2) w

/-- Claim C1: a single call to `dispatch` submits exactly one task to the
external task-creation facility — the submission log grows by exactly one
entry, neither zero nor more. -/
theorem dispatch_submits_exactly_one_task (q : PhonyWorkQueue) (f : Comp)
    (w : World Comp) :
    (q.dispatch f w).submitted.length = w.submitted.length + 1 := by
  simp [PhonyWorkQueue.dispatch, ConcurrentCppTask__createAndRun,
    newEventLoopTaskNoContext]

/-- Claim C2: the task handed to the external facility wraps exactly the
computation the caller supplied: the submission log is extended by a single
wrapper whose stored function is the supplied `f`, unmodified. -/
theorem dispatch_wraps_supplied_computation (q : PhonyWorkQueue) (f : Comp)
    (w : World Comp) :
    (q.dispatch f w).submitted
      = w.submitted ++ [{ taskId := w.nextId, func := f }] := rfl

/-- Claim C3: `dispatch` never invokes the supplied computation before it
returns — the caller-thread execution log is unchanged — and its only effect
before returning is the single hand-off: beyond allocating and submitting the
one wrapper, every observable component of the world is untouched. -/
theorem dispatch_not_synchronous (q : PhonyWorkQueue) (f : Comp)
    (w : World Comp) :
    (q.dispatch f w).executedSync = w.executedSync ∧
    (q.dispatch f w).submitted
      = w.submitted ++ [{ taskId := w.nextId, func := f }] ∧
    (q.dispatch f w).refCount = w.refCount ∧
    (q.dispatch f w).queues = w.queues ∧
    (q.dispatch f w).errorsReported = w.errorsReported :=
  ⟨rfl, rfl, rfl, rfl, rfl⟩

/-- Claim C4: the construction name has no effect on behavior — `create`
returns identical dispatcher and world for any two labels, and dispatching the
same computation through either result produces the same submission log. -/
theorem create_name_noninterference (n₁ n₂ : String) (f : Comp)
    (w : World Comp) :
    PhonyWorkQueue.create n₁ w = PhonyWorkQueue.create n₂ w ∧
    ((PhonyWorkQueue.create n₁ w).1.dispatch f
        (PhonyWorkQueue.create n₁ w).2).submitted
      = ((PhonyWorkQueue.create n₂ w).1.dispatch f
        (PhonyWorkQueue.create n₂ w).2).submitted :=
  ⟨rfl, rfl⟩

/-- Claim C5: construction never fails — the embedded `create` is a total
function with no error branch (its result type is a plain pair, not an
`Option` or `Except`): for every label it returns a handle whose reference
count is exactly one, reports no error, and is usable, in that dispatching
any computation through it submits exactly one task. -/
theorem create_total_and_usable (name : String) (w : World Comp) :
    (PhonyWorkQueue.create name w).2.refCount
        (PhonyWorkQueue.create name w).1.queueId = 1 ∧
    (PhonyWorkQueue.create name w).2.errorsReported
        = w.errorsReported ∧
    ∀ f : Comp,
      ((PhonyWorkQueue.create name w).1.dispatch f
          (PhonyWorkQueue.create name w).2).submitted.length
        = w.submitted.length + 1 := by
  refine ⟨?_, rfl, ?_⟩
  · simp [PhonyWorkQueue.create]
  · intro f
    simp [PhonyWorkQueue.create, PhonyWorkQueue.dispatch,
      ConcurrentCppTask__createAndRun, newEventLoopTaskNoContext]

/-- Claim C6: `dispatch` has no observable failure path at this layer — the
embedded function returns only an updated world (no `Option`/`Except`, no
result value), and the log of errors reported back through this component is
unchanged by the call. -/
theorem dispatch_no_observable_failure (q : PhonyWorkQueue) (f : Comp)
    (w : World Comp) :
    (q.dispatch f w).errorsReported = w.errorsReported := rfl

/-- Claim C7: `dispatch` has no observable effect beyond the single
forwarding call — the whole world after the call equals the world before,
except that the submission log carries the one new wrapper (and the allocator
advanced past the identity consumed to build it). -/
theorem dispatch_frame (q : PhonyWorkQueue) (f : Comp) (w : World Comp) :
    q.dispatch f w
      = { w with
            nextId := w.nextId + 1
            submitted := w.submitted ++ [{ taskId := w.nextId, func := f }] } :=
  rfl

/-- Claim C8: the dispatcher is stateless beyond its identity — a
`PhonyWorkQueue` value carries nothing but its allocation identity, a
dispatch call leaves every piece of dispatcher state (reference counts, the
set of allocated queues) unchanged, and the hand-off a call performs is
independent of all prior calls: whatever the starting world, the entries the
call appends to the submission log wrap exactly the supplied computation. -/
theorem dispatch_stateless (q : PhonyWorkQueue) (f : Comp) (w : World Comp) :
    (q.dispatch f w).refCount = w.refCount ∧
    (q.dispatch f w).queues = w.queues ∧
    ((q.dispatch f w).submitted.drop w.submitted.length).map
        EventLoopTaskNoContext.func = [f] := by
  refine ⟨rfl, rfl, ?_⟩
  have h : (q.dispatch f w).submitted
      = w.submitted ++ [{ taskId := w.nextId, func := f }] := rfl
  rw [h, List.drop_left]
  rfl

/-- Every task id in the submission log is older than the allocator's next
fresh identity, and the logged ids are pairwise distinct. -/
def TaskIdsFresh (w : World Comp) : Prop :=
  (w.submitted.map EventLoopTaskNoContext.taskId).Nodup ∧
  ∀ t ∈ w.submitted, t.taskId < w.nextId

theorem taskIdsFresh_initial : TaskIdsFresh (initialWorld Comp) :=
  ⟨List.nodup_nil, fun t ht => absurd ht (List.not_mem_nil t)⟩

theorem taskIdsFresh_dispatch (q : PhonyWorkQueue) (f : Comp)
    (w : World Comp) (h : TaskIdsFresh w) : TaskIdsFresh (q.dispatch f w) := by
  obtain ⟨h₁, h₂⟩ := h
  have hsub : (q.dispatch f w).submitted
      = w.submitted ++ [{ taskId := w.nextId, func := f }] := rfl
  have hnext : (q.dispatch f w).nextId = w.nextId + 1 := rfl
  constructor
  · rw [hsub]
    simp only [List.map_append, List.map_cons, List.map_nil,
      List.nodup_append, List.nodup_cons, List.nodup_nil]
    refine ⟨h₁, ⟨by simp, trivial⟩, ?_⟩
    intro a ha
    simp only [List.mem_singleton]
    intro hb
    obtain ⟨t, ht, hta⟩ := List.mem_map.mp ha
    have := h₂ t ht
    omega
  · intro t ht
    rw [hsub] at ht
    rw [hnext]
    rcases List.mem_append.mp ht with ht | ht
    · exact Nat.lt_succ_of_lt (h₂ t ht)
    · rw [List.mem_singleton.mp ht]
      exact Nat.lt_succ_self _

theorem taskIdsFresh_run (calls : List (PhonyWorkQueue × Comp))
    (w : World Comp) (h : TaskIdsFresh w) :
    TaskIdsFresh (runDispatches calls w) := by
  induction calls generalizing w with
  | nil => exact h
  | cons c cs ih => exact ih _ (taskIdsFresh_dispatch c.1 c.2 w h)

/-- Claim C9: every dispatch call passes a freshly allocated task wrapper to
the external facility — across any sequence of dispatch calls from the
initial world, on the same or different dispatchers, the submitted wrappers
are pairwise distinct objects (their allocation identities never repeat). -/
theorem dispatch_wrapper_always_fresh (Comp : Type)
    (calls : List (PhonyWorkQueue × Comp)) :
    ((runDispatches calls (initialWorld Comp)).submitted.map
        EventLoopTaskNoContext.taskId).Nodup ∧
    (runDispatches calls (initialWorld Comp)).submitted.Pairwise (· ≠ ·) := by
  have h := (taskIdsFresh_run calls (initialWorld Comp) taskIdsFresh_initial).1
  exact ⟨h, List.Nodup.of_map _ h⟩

/-- Every allocated queue identity is older than the allocator's next fresh
identity. -/
def QueueIdsFresh (w : World Comp) : Prop :=
  ∀ i ∈ w.queues, i < w.nextId

theorem queueIdsFresh_initial : QueueIdsFresh (initialWorld Comp) :=
  fun i hi => absurd hi (List.not_mem_nil i)

theorem queueIdsFresh_create (name : String) (w : World Comp)
    (h : QueueIdsFresh w) :
    QueueIdsFresh (PhonyWorkQueue.create name w).2 := by
  intro i hi
  have hq : (PhonyWorkQueue.create name w).2.queues
      = w.queues ++ [w.nextId] := rfl
  have hn : (PhonyWorkQueue.create name w).2.nextId
      = w.nextId + 1 := rfl
  rw [hq] at hi
  rw [hn]
  rcases List.mem_append.mp hi with hi | hi
  · exact Nat.lt_succ_of_lt (h i hi)
  · rw [List.mem_singleton.mp hi]
    exact Nat.lt_succ_self _

theorem queueIdsFresh_run (names : List String) (w : World Comp)
    (h : QueueIdsFresh w) : QueueIdsFresh (runCreates names w) := by
  induction names generalizing w with
  | nil => exact h
  | cons n ns ih => exact ih _ (queueIdsFresh_create n w h)

/-- Claim C10: `create` always returns a distinct, newly constructed
dispatcher whose reference count is exactly one at return — after any
sequence of prior constructions from the initial world, a further `create`
yields a handle whose identity is not that of any previously existing
instance and whose reference count in the resulting world is one. -/
theorem create_fresh_sole_owner (Comp : Type) (names : List String)
    (name : String) :
    (PhonyWorkQueue.create name
          (runCreates names (initialWorld Comp))).1.queueId ∉
        (runCreates names (initialWorld Comp)).queues ∧
    (PhonyWorkQueue.create name
          (runCreates names (initialWorld Comp))).2.refCount
        (PhonyWorkQueue.create name
          (runCreates names (initialWorld Comp))).1.queueId = 1 := by
  constructor
  · intro hmem
    have h := queueIdsFresh_run names (initialWorld Comp)
      queueIdsFresh_initial
    have hid : (PhonyWorkQueue.create name
        (runCreates names (initialWorld Comp))).1.queueId
        = (runCreates names (initialWorld Comp)).nextId := rfl
    rw [hid] at hmem
    exact absurd (h _ hmem) (Nat.lt_irrefl _)
  · simp [PhonyWorkQueue.create]

end Bun
